import Mathlib

/-!
Verification of the RN-Transformers RAG pipeline core:
the PII masking engine (`simple_rag/utils/data_masking.py`),
the retrieval gateway (`llm_rag/vector_store.py`, `buscar_documentos`),
and the answer workflow (`llm_rag/graph/{state,nodes,workflow}.py`).

The Python code is shallowly embedded: each `re.sub` call with a fixed
pattern is modelled by a hand-rolled scanner (`reSubL`) over `List Char`
that performs Python's leftmost, non-overlapping substitution; the
fixed regular expressions of `data_masking.py` are compiled by hand into
deterministic matchers (the patterns involved admit no essential
backtracking beyond what the matchers encode, as argued in comments).
Word characters, whitespace and lower-casing are modelled over ASCII
plus the Latin-1 supplement, which covers every character class the
source patterns mention (`A-Za-zÀ-ÿ`, digits, `\s`, `\w`).
-/

namespace RNT

/-- Python `str.lower` restricted to ASCII and the Latin-1 supplement
(`A`-`Z` and `À`-`Þ` except `×` map down by 32, as in Unicode). -/
def pyLower (c : Char) : Char :=
  if 'A' ≤ c && c ≤ 'Z' then Char.ofNat (c.toNat + 32)
  else if 0xC0 ≤ c.toNat && c.toNat ≤ 0xDE && c.toNat != 0xD7 then Char.ofNat (c.toNat + 32)
  else c

/-- Python whitespace (`str.strip`, regex `\s`): ASCII spacing characters
plus NEL (U+0085) and NBSP (U+00A0), the Latin-1 whitespace. -/
def isPySpace (c : Char) : Bool :=
  c == ' ' || c == '\t' || c == '\n' || c == '\r' ||
  c.toNat == 0x0B || c.toNat == 0x0C ||
  c.toNat == 0x1C || c.toNat == 0x1D || c.toNat == 0x1E || c.toNat == 0x1F ||
  c.toNat == 0x85 || c.toNat == 0xA0

/-- Regex `\w` over ASCII + Latin-1: alphanumerics, `_`, the Latin-1
letters (`À`-`ÿ` minus `×`, `÷`) and `ª`, `º`, `µ`. -/
def isWordChar (c : Char) : Bool :=
  c.isAlphanum || c == '_' ||
  (0xC0 ≤ c.toNat && c.toNat ≤ 0xFF && c.toNat != 0xD7 && c.toNat != 0xF7) ||
  c.toNat == 0xAA || c.toNat == 0xBA || c.toNat == 0xB5

/-- `\b` between an optional previous character and an optional current
character (off the ends of the string counts as non-word). -/
def wordOpt : Option Char → Bool
  | none => false
  | some c => isWordChar c

/-- Word boundary right before the scan position, given the previous
character; every numeric pattern of the source starts with `\b\d`. -/
def atBoundary (prev : Option Char) : Bool := !(wordOpt prev)

/-- Word boundary right after a matched word character, looking at the
unconsumed rest of the input. -/
def endBoundary (rest : List Char) : Bool := !(wordOpt rest.head?)

/-- Greedy run of characters satisfying `p` (regex `p*` on a character
class): the pair (consumed, rest). -/
def runOf (p : Char → Bool) (s : List Char) : List Char × List Char :=
  (s.takeWhile p, s.dropWhile p)

/-- Case-insensitive literal match (regex `re.IGNORECASE`): `lab` is the
pattern already lower-cased; consumes `lab.length` characters of the
input whose `pyLower` images spell `lab`, returning (consumed, rest). -/
def matchCI : List Char → List Char → Option (List Char × List Char)
  | [], s => some ([], s)
  | _ :: _, [] => none
  | l :: ls, c :: cs =>
      if pyLower c == l then
        (matchCI ls cs).map (fun pr => (c :: pr.1, pr.2))
      else none

/-- A compiled pattern: given the previous character (for `\b`) and the
input suffix, optionally returns (matched text, replacement, rest). -/
def Matcher : Type := Option Char → List Char → Option (List Char × List Char × List Char)

/-- Python `re.sub` scan: leftmost, non-overlapping; `\b` is judged on
the original characters (the previous original character is threaded
through), and scanning resumes after each match.  `fuel` bounds the
recursion; it is instantiated with the input length. -/
def reSubL (m : Matcher) : Nat → Option Char → List Char → List Char
  | _, _, [] => []
  | 0, _, s => s
  | fuel + 1, prev, c :: cs =>
      match m prev (c :: cs) with
      | some (matched, repl, rest) => repl ++ reSubL m fuel matched.getLast? rest
      | none => c :: reSubL m fuel (some c) cs

/-- One full `re.sub(pattern, repl, text)` pass. -/
def pyReSub (m : Matcher) (s : List Char) : List Char :=
  reSubL m s.length none s

/-! ## PII masking engine (`simple_rag/utils/data_masking.py`)

Each `mask_*` function below embeds the Python function of the same
name: one `pyReSub` pass per `re.sub` call, in source order.  A pattern
piece `\d{n}` followed by a character outside `\d` is compiled as
"the maximal digit run has length exactly `n`", which is equivalent to
the backtracking semantics because a longer run makes the next literal
fail and a shorter attempt stops on a digit. -/

/-- `\b\d{3}\.\d{3}\.\d{3}-\d{2}\b` → `cpf[:3] . mc*3 . mc*3 - cpf[-2:]`
(first `re.sub` of `mask_cpf`). -/
def cpfFmtM (mc : Char) : Matcher := fun prev s =>
  if !atBoundary prev then none else
  let (a, r1) := runOf Char.isDigit s
  if a.length != 3 then none else
  match r1 with
  | [] => none
  | c1 :: r2 =>
    if c1 != '.' then none else
    let (b, r3) := runOf Char.isDigit r2
    if b.length != 3 then none else
    match r3 with
    | [] => none
    | c2 :: r4 =>
      if c2 != '.' then none else
      let (c, r5) := runOf Char.isDigit r4
      if c.length != 3 then none else
      match r5 with
      | [] => none
      | c3 :: r6 =>
        if c3 != '-' then none else
        let (d, r7) := runOf Char.isDigit r6
        if d.length != 2 || !endBoundary r7 then none else
        some (a ++ c1 :: b ++ c2 :: c ++ c3 :: d,
              a ++ c1 :: List.replicate 3 mc ++ c2 :: List.replicate 3 mc ++ c3 :: d,
              r7)

/-- `\b\d{11}\b` → `cpf[:3] + mc*5 + cpf[-3:]` (second `re.sub` of
`mask_cpf`). -/
def cpfPlainM (mc : Char) : Matcher := fun prev s =>
  if !atBoundary prev then none else
  let (a, r) := runOf Char.isDigit s
  if a.length == 11 && endBoundary r then
    some (a, a.take 3 ++ List.replicate 5 mc ++ a.drop (a.length - 3), r)
  else none

/-- `mask_cpf(text, mask_char)`: formatted CPFs then bare 11-digit runs. -/
def mask_cpf (text : String) (mc : Char) : String :=
  ⟨pyReSub (cpfPlainM mc) (pyReSub (cpfFmtM mc) text.data)⟩

/-- `\b\d{2}\.\d{3}\.\d{3}-[\dXx]\b` → `rg[:2] . mc*3 . mc*3 - rg[-1]`
(first `re.sub` of `mask_rg`). -/
def rgFmtM (mc : Char) : Matcher := fun prev s =>
  if !atBoundary prev then none else
  let (a, r1) := runOf Char.isDigit s
  if a.length != 2 then none else
  match r1 with
  | [] => none
  | c1 :: r2 =>
    if c1 != '.' then none else
    let (b, r3) := runOf Char.isDigit r2
    if b.length != 3 then none else
    match r3 with
    | [] => none
    | c2 :: r4 =>
      if c2 != '.' then none else
      let (c, r5) := runOf Char.isDigit r4
      if c.length != 3 then none else
      match r5 with
      | [] => none
      | c3 :: r6 =>
        if c3 != '-' then none else
        match r6 with
        | [] => none
        | x :: r7 =>
          if !(x.isDigit || x == 'X' || x == 'x') || !endBoundary r7 then none else
          some (a ++ c1 :: b ++ c2 :: c ++ c3 :: [x],
                a ++ c1 :: List.replicate 3 mc ++ c2 :: List.replicate 3 mc ++ c3 :: [x],
                r7)

/-- `\b\d{9}\b` → `rg[:2] + mc*5 + rg[-2:]` (second `re.sub` of
`mask_rg`). -/
def rgPlainM (mc : Char) : Matcher := fun prev s =>
  if !atBoundary prev then none else
  let (a, r) := runOf Char.isDigit s
  if a.length == 9 && endBoundary r then
    some (a, a.take 2 ++ List.replicate 5 mc ++ a.drop (a.length - 2), r)
  else none

/-- `mask_rg(text, mask_char)`. -/
def mask_rg (text : String) (mc : Char) : String :=
  ⟨pyReSub (rgPlainM mc) (pyReSub (rgFmtM mc) text.data)⟩

/-- `\b\d{5}-\d{3}\b` → `cep[:5] - mc*3` (first `re.sub` of `mask_cep`). -/
def cepFmtM (mc : Char) : Matcher := fun prev s =>
  if !atBoundary prev then none else
  let (a, r1) := runOf Char.isDigit s
  if a.length != 5 then none else
  match r1 with
  | [] => none
  | c1 :: r2 =>
    if c1 != '-' then none else
    let (b, r3) := runOf Char.isDigit r2
    if b.length == 3 && endBoundary r3 then
      some (a ++ c1 :: b, a ++ c1 :: List.replicate 3 mc, r3)
    else none

/-- `\b\d{8}\b` → `cep[:5] + mc*3` (second `re.sub` of `mask_cep`). -/
def cepPlainM (mc : Char) : Matcher := fun prev s =>
  if !atBoundary prev then none else
  let (a, r) := runOf Char.isDigit s
  if a.length == 8 && endBoundary r then
    some (a, a.take 5 ++ List.replicate 3 mc, r)
  else none

/-- `mask_cep(text, mask_char)`. -/
def mask_cep (text : String) (mc : Char) : String :=
  ⟨pyReSub (cepPlainM mc) (pyReSub (cepFmtM mc) text.data)⟩

/-- `\b\d{2}sep\d{2}sep\d{4}\b` → `mc*2 sep mc*2 sep mc*4`, the common
shape of the three `re.sub` calls of `mask_birth_date`
(`sep` ∈ `/`, `-`, `.`). -/
def birthM (sep mc : Char) : Matcher := fun prev s =>
  if !atBoundary prev then none else
  let (a, r1) := runOf Char.isDigit s
  if a.length != 2 then none else
  match r1 with
  | [] => none
  | c1 :: r2 =>
    if c1 != sep then none else
    let (b, r3) := runOf Char.isDigit r2
    if b.length != 2 then none else
    match r3 with
    | [] => none
    | c2 :: r4 =>
      if c2 != sep then none else
      let (c, r5) := runOf Char.isDigit r4
      if c.length == 4 && endBoundary r5 then
        some (a ++ c1 :: b ++ c2 :: c,
              List.replicate 2 mc ++ c1 :: List.replicate 2 mc ++ c2 :: List.replicate 4 mc,
              r5)
      else none

/-- `mask_birth_date(text, mask_char)`: slash, dash, then dot dates. -/
def mask_birth_date (text : String) (mc : Char) : String :=
  ⟨pyReSub (birthM '.' mc) (pyReSub (birthM '-' mc) (pyReSub (birthM '/' mc) text.data))⟩

/-- The greedy `\.?` of `Pront\.?`: consume a dot when `optDot` and the
input starts with one (if the rest of the pattern then fails, retrying
without the dot also fails on `[:\s]+`, so no backtracking is needed). -/
def prontDot (optDot : Bool) (r1 : List Char) : List Char × List Char :=
  if optDot then
    match r1 with
    | c :: r => if c == '.' then ([c], r) else ([], r1)
    | [] => ([], r1)
  else ([], r1)

/-- `(label[:\s]+)(\d{6,10})\b` (IGNORECASE) → label and separators kept,
digits masked but the last three (common shape of the four `re.sub`
calls of `mask_prontuario`; `optDot` adds the `\.?` of `Pront\.?`). -/
def prontM (lab : List Char) (optDot : Bool) (mc : Char) : Matcher := fun _prev s =>
  match matchCI lab s with
  | none => none
  | some (l, r1) =>
    let dr := prontDot optDot r1
    let (sp, r3) := runOf (fun c => c == ':' || isPySpace c) dr.2
    if sp.isEmpty then none else
    let (ds, r4) := runOf Char.isDigit r3
    if 6 ≤ ds.length && ds.length ≤ 10 && endBoundary r4 then
      some (l ++ dr.1 ++ sp ++ ds,
            l ++ dr.1 ++ sp ++ List.replicate (ds.length - 3) mc ++ ds.drop (ds.length - 3),
            r4)
    else none

/-- `mask_prontuario(text, mask_char)`: the four labelled patterns, in
source order. -/
def mask_prontuario (text : String) (mc : Char) : String :=
  ⟨pyReSub (prontM "nº do prontuário".data false mc)
    (pyReSub (prontM "registro".data false mc)
      (pyReSub (prontM "pront".data true mc)
        (pyReSub (prontM "prontuário".data false mc) text.data)))⟩

/-- Character class of the email local part, `[a-zA-Z0-9._%+-]`. -/
def localClass (c : Char) : Bool :=
  c.isAlphanum || c == '.' || c == '_' || c == '%' || c == '+' || c == '-'

/-- Character class of the email domain, `[a-zA-Z0-9.-]`. -/
def domClass (c : Char) : Bool :=
  c.isAlphanum || c == '.' || c == '-'

/-- ASCII letter, `[a-zA-Z]`. -/
def asciiLetter (c : Char) : Bool := c.isAlpha

/-- Backtracking split of the maximal domain-class run `R` for
`[a-zA-Z0-9.-]+\.[a-zA-Z]{2,}\b`: the regex engine gives the `+` group
back from the right, so the rightmost dot of `R` followed by at least
two letters and then a word boundary wins.  `after` is the input beyond
`R`, needed for the final `\b` when the letters reach the end of `R`.
Returns (prefix of `R` before the chosen dot, letters, leftover of `R`). -/
def domSplit (after : List Char) : List Char → Option (List Char × List Char × List Char)
  | [] => none
  | c :: cs =>
    match domSplit after cs with
    | some (pre, ls, rem) => some (c :: pre, ls, rem)
    | none =>
      if c == '.' then
        let ls := cs.takeWhile asciiLetter
        let rem := cs.drop ls.length
        if 2 ≤ ls.length && !wordOpt (rem ++ after).head? then
          some ([], ls, rem)
        else none
      else none

/-- `\b([a-zA-Z0-9._%+-]+)(@[a-zA-Z0-9.-]+\.[a-zA-Z]{2,})\b`: the local
part keeps its first 4 characters (no masking at all when it has ≤ 4),
the rest becomes `mc`, the domain is kept (`mask_email`). -/
def emailM (mc : Char) : Matcher := fun prev s =>
  let (lp, r1) := runOf localClass s
  match lp with
  | [] => none
  | l0 :: _ =>
    if wordOpt prev == isWordChar l0 then none else
    match r1 with
    | [] => none
    | at0 :: r2 =>
      if at0 != '@' then none else
      let (dr, r3) := runOf domClass r2
      match domSplit r3 dr with
      | none => none
      | some (pre, ls, rem) =>
        if pre.isEmpty then none else
        let dom := at0 :: pre ++ '.' :: ls
        let repl :=
          if lp.length ≤ 4 then lp ++ dom
          else lp.take 4 ++ List.replicate (lp.length - 4) mc ++ dom
        some (lp ++ dom, repl, rem ++ r3)

/-- `mask_email(text, mask_char)`. -/
def mask_email (text : String) (mc : Char) : String :=
  ⟨pyReSub (emailM mc) text.data⟩

/-- `\(\d{2}\)\s*\d{4,5}-\d{4}` → `(mc mc) mc*5-last4` (11 digits) or
`(mc mc) mc*4-last4` (10 digits); note the replacement always has a
single space, whatever `\s*` matched (first `re.sub` of `mask_phone`).
The final `\d{4}` has nothing after it, so it takes the first four
digits of the run. -/
def phFullM (mc : Char) : Matcher := fun _prev s =>
  match s with
  | [] => none
  | c0 :: r1 =>
    if c0 != '(' then none else
    let (a, r2) := runOf Char.isDigit r1
    if a.length != 2 then none else
    match r2 with
    | [] => none
    | c1 :: r3 =>
      if c1 != ')' then none else
      let (w, r4) := runOf isPySpace r3
      let (b, r5) := runOf Char.isDigit r4
      if !(b.length == 4 || b.length == 5) then none else
      match r5 with
      | [] => none
      | c2 :: r6 =>
        if c2 != '-' then none else
        let four := r6.take 4
        if (four.all Char.isDigit && four.length == 4) then
          some (c0 :: a ++ c1 :: w ++ b ++ c2 :: four,
                c0 :: mc :: mc :: c1 :: ' ' ::
                  List.replicate (if a.length + b.length + 4 == 11 then 5 else 4) mc ++
                  c2 :: four,
                r6.drop 4)
        else none

/-- `\b\d{2}\s+\d{4,5}-\d{4}\b` → `mc mc  mc*5-last4` / `mc mc  mc*4-last4`
(single space in the replacement; second `re.sub` of `mask_phone`). -/
def phSpaceM (mc : Char) : Matcher := fun prev s =>
  if !atBoundary prev then none else
  let (a, r1) := runOf Char.isDigit s
  if a.length != 2 then none else
  let (w, r2) := runOf isPySpace r1
  if w.isEmpty then none else
  let (b, r3) := runOf Char.isDigit r2
  if !(b.length == 4 || b.length == 5) then none else
  match r3 with
  | [] => none
  | c2 :: r4 =>
    if c2 != '-' then none else
    let (c, r5) := runOf Char.isDigit r4
    if c.length == 4 && endBoundary r5 then
      some (a ++ w ++ b ++ c2 :: c,
            mc :: mc :: ' ' ::
              List.replicate (if a.length + b.length + c.length == 11 then 5 else 4) mc ++
              c2 :: c,
            r5)
    else none

/-- `\b\d{11}\b` → `mc*7 + last4` (third `re.sub` of `mask_phone`). -/
def ph11M (mc : Char) : Matcher := fun prev s =>
  if !atBoundary prev then none else
  let (a, r) := runOf Char.isDigit s
  if a.length == 11 && endBoundary r then
    some (a, List.replicate 7 mc ++ a.drop (a.length - 4), r)
  else none

/-- `\b\d{10}\b` → `mc*6 + last4` (fourth `re.sub` of `mask_phone`). -/
def ph10M (mc : Char) : Matcher := fun prev s =>
  if !atBoundary prev then none else
  let (a, r) := runOf Char.isDigit s
  if a.length == 10 && endBoundary r then
    some (a, List.replicate 6 mc ++ a.drop (a.length - 4), r)
  else none

/-- `mask_phone(text, mask_char)`: parenthesised, spaced, bare-11, then
bare-10 formats. -/
def mask_phone (text : String) (mc : Char) : String :=
  ⟨pyReSub (ph10M mc) (pyReSub (ph11M mc) (pyReSub (phSpaceM mc) (pyReSub (phFullM mc) text.data)))⟩

/-- Character class of a name, `[A-Za-zÀ-ÿ ]`. -/
def nameClass (c : Char) : Bool :=
  ('A' ≤ c && c ≤ 'Z') || ('a' ≤ c && c ≤ 'z') ||
  (0xC0 ≤ c.toNat && c.toNat ≤ 0xFF) || c == ' '

/-- `prepositions = {"de", "da", "do", "dos", "das", "e"}`. -/
def prepositions : List String := ["de", "da", "do", "dos", "das", "e"]

/-- Python `str.strip()` on a character list. -/
def pyStripL (l : List Char) : List Char :=
  ((l.dropWhile isPySpace).reverse.dropWhile isPySpace).reverse

/-- Python `str.split()` (split on whitespace runs, dropping empties). -/
def pySplit (l : List Char) : List (List Char) :=
  (l.foldr (fun c acc =>
    if isPySpace c then [] :: acc
    else
      match acc with
      | [] => [[c]]
      | w :: ws => (c :: w) :: ws) []).filter (fun w => !w.isEmpty)

/-- One word of the name: prepositions and single letters pass through,
otherwise first letter plus `mc` for each remaining letter. -/
def maskNamePart (mc : Char) (part : List Char) : List Char :=
  if prepositions.contains ⟨part.map pyLower⟩ || part.length == 1 then part
  else
    match part with
    | [] => []
    | c :: rest => c :: List.replicate rest.length mc

/-- Lazy `([A-Za-zÀ-ÿ ]+?)(?=\n|$)` after `Nome:\s*`, with the greedy
`\s*` backtracking from `wlen` whitespace characters down to zero: the
name run must be nonempty and stop right before a newline or the end of
the input.  Returns (whitespace kept in group 1, name run, rest). -/
def nameAt (r1 : List Char) (wlen : Nat) : Option (List Char × List Char × List Char) :=
  let w := r1.take wlen
  let k := r1.drop wlen
  let run := k.takeWhile nameClass
  let rest := k.drop run.length
  if !run.isEmpty && (rest.head?.all (· == '\n')) then
    some (w, run, rest)
  else none

/-- Backtrack the greedy `Nome:\s*` from `wlen` whitespace characters
down to zero until the lazy name run succeeds. -/
def nameTryWs (r1 : List Char) : Nat → Option (List Char × List Char × List Char)
  | 0 => nameAt r1 0
  | wl + 1 =>
    match nameAt r1 (wl + 1) with
    | some res => some res
    | none => nameTryWs r1 wl

/-- `(Nome:\s*)([A-Za-zÀ-ÿ ]+?)(?=\n|$)` (IGNORECASE, MULTILINE): the
label and whitespace are kept, the name words are split, masked by
`maskNamePart` and re-joined with single spaces (`mask_name`). -/
def nameM (mc : Char) : Matcher := fun _prev s =>
  match matchCI "nome:".data s with
  | none => none
  | some (l, r1) =>
    match nameTryWs r1 (r1.takeWhile isPySpace).length with
    | none => none
    | some (w, run, rest) =>
      some (l ++ w ++ run,
            l ++ w ++ List.intercalate [' '] ((pySplit (pyStripL run)).map (maskNamePart mc)),
            rest)

/-- `mask_name(text, mask_char)`. -/
def mask_name (text : String) (mc : Char) : String :=
  ⟨pyReSub (nameM mc) text.data⟩

/-- The `custom_patterns` dict of `mask_all_pii`: caller-supplied
`re.sub(pattern, replacement, ·)` calls, modelled as opaque text
transformations applied in insertion order. -/
def applyCustom (cps : Option (List (String → String))) (t : String) : String :=
  match cps with
  | none => t
  | some fs => fs.foldl (fun acc f => f acc) t

/-- `mask_all_pii(text, mask_char, custom_patterns)`: the eight rules in
source order — name, birth date, prontuário, CPF, RG, email, phone,
CEP — then the custom patterns. -/
def mask_all_pii (text : String) (mc : Char)
    (cps : Option (List (String → String))) : String :=
  applyCustom cps
    (mask_cep (mask_phone (mask_email (mask_rg (mask_cpf
      (mask_prontuario (mask_birth_date (mask_name text mc) mc) mc) mc) mc) mc) mc) mc)

/-- `MASKING_FUNCTIONS`, in insertion order; `"all"` maps to
`mask_all_pii` with its default (absent) custom patterns. -/
def MASKING_FUNCTIONS : List (String × (String → Char → String)) :=
  [("nome", mask_name), ("cpf", mask_cpf), ("rg", mask_rg), ("cep", mask_cep),
   ("email", mask_email), ("phone", mask_phone), ("birth_date", mask_birth_date),
   ("prontuario", mask_prontuario), ("all", fun t mc => mask_all_pii t mc none)]

/-- `mask_pii(text, pii_types, mask_char)`: `None` or a list containing
`"all"` masks everything; otherwise each listed type is applied in list
order when it is a known key other than `"all"`, and silently skipped
otherwise. -/
def mask_pii (text : String) (piiTypes : Option (List String)) (mc : Char) : String :=
  match piiTypes with
  | none => mask_all_pii text mc none
  | some ts =>
    if ts.contains "all" then mask_all_pii text mc none
    else ts.foldl (fun acc ty =>
      if ty != "all" then
        match MASKING_FUNCTIONS.lookup ty with
        | some f => f acc mc
        | none => acc
      else acc) text

/-! ## Retrieval gateway (`llm_rag/vector_store.py`) -/

/-- Chunk metadata stored alongside each vector-store entry. -/
structure Metadata where
  documentoId : String
  documentoNome : String
  numeroPagina : Nat
  totalPaginas : Nat
deriving DecidableEq

/-- A raw nearest-neighbour candidate as returned by the index query:
one entry of the parallel `documents`/`metadatas`/`distances` arrays. -/
structure Candidato where
  texto : String
  metadata : Metadata
  distancia : ℚ
deriving DecidableEq

/-- A formatted result of `buscar_documentos`. -/
structure Documento where
  texto : String
  metadata : Metadata
  score : ℚ
  distancia : ℚ
deriving DecidableEq

/-- Python `round` ties-to-even on a rational. -/
def roundHalfEven (q : ℚ) : ℤ :=
  let n := ⌊q⌋
  if q - n < 1 / 2 then n
  else if (1 : ℚ) / 2 < q - n then n + 1
  else if n % 2 == 0 then n else n + 1

/-- Python `round(q, 4)`. -/
def pyRound4 (q : ℚ) : ℚ := (roundHalfEven (q * 10000) : ℚ) / 10000

/-- The result record built for one retained candidate (the dict literal
inside the loop of `buscar_documentos`). -/
def mkDocumento (c : Candidato) : Documento :=
  { texto := c.texto, metadata := c.metadata,
    score := pyRound4 (1 - c.distancia), distancia := pyRound4 c.distancia }

/-- Core of `VectorStore.buscar_documentos`: for each candidate, the
similarity `1 - distancia` is computed and the candidate is kept only
when it reaches `threshold` (`config.retrieval_similarity_threshold`);
kept candidates are emitted in index order with rounded scores. -/
def buscar_documentos (threshold : ℚ) (cands : List Candidato) : List Documento :=
  cands.filterMap fun c =>
    if (1 : ℚ) - c.distancia ≥ threshold then some (mkDocumento c) else none

/-! ## Answer workflow (`llm_rag/graph/{state,nodes,workflow}.py`) -/

/-- A source citation (the `fonte` dict of `recuperar_documentos`). -/
structure Fonte where
  documentoNome : String
  numeroPagina : Nat
  score : ℚ
deriving DecidableEq

/-- `AgentState` (`graph/state.py`). -/
structure AgentState where
  consulta : String
  historicoConversa : List (String × String)
  documentosRecuperados : List Documento
  contexto : String
  resposta : String
  fontes : List Fonte
  precisaRecuperacao : Bool
  erro : Option String
deriving DecidableEq

/-- `saudacoes` of `analisar_consulta`. -/
def saudacoes : List String := ["oi", "olá", "bom dia", "boa tarde", "boa noite", "hello", "hi"]

/-- Python `str.lower` lifted to strings. -/
def pyLowerS (s : String) : String := ⟨s.data.map pyLower⟩

/-- Python `str.strip()` lifted to strings. -/
def pyStrip (s : String) : String := ⟨pyStripL s.data⟩

/-- The decision computed by `analisar_consulta`: `precisa_recuperacao`
is `false` exactly when the lower-cased, stripped query is a greeting or
the stripped query has fewer than 3 characters. -/
def precisaRecuperacaoDe (consulta : String) : Bool :=
  if saudacoes.contains (pyStrip (pyLowerS consulta)) || (pyStrip consulta).length < 3 then
    false
  else true

/-- Node `analisar_consulta`: `{**state, "precisa_recuperacao": …}`. -/
def analisar_consulta (s : AgentState) : AgentState :=
  { s with precisaRecuperacao := precisaRecuperacaoDe s.consulta }

/-- The `fonte` projection of one retrieved document. -/
def fonteOf (d : Documento) : Fonte :=
  ⟨d.metadata.documentoNome, d.metadata.numeroPagina, d.score⟩

/-- The duplicate-skipping `fontes` accumulation loop of
`recuperar_documentos` (`if fonte not in fontes: fontes.append(fonte)`). -/
def dedupFontes (docs : List Documento) : List Fonte :=
  docs.foldl (fun acc d => if acc.contains (fonteOf d) then acc else acc ++ [fonteOf d]) []

/-- Node `recuperar_documentos`.  The `vector_store.buscar_documentos`
call either returns documents or raises; `retrieval` carries the raised
exception's `str(e)` in the error case. -/
def recuperar_documentos (retrieval : Except String (List Documento))
    (s : AgentState) : AgentState :=
  if !s.precisaRecuperacao then s
  else
    match retrieval with
    | .ok docs =>
        { s with documentosRecuperados := docs, fontes := dedupFontes docs, erro := none }
    | .error e =>
        { s with documentosRecuperados := [], fontes := [],
                 erro := some ("Erro ao recuperar documentos: " ++ e) }

/-- Python `f"{score:.2f}"` on a rational (round-half-even to two
decimal places; scores are non-negative in every run considered). -/
def format2 (q : ℚ) : String :=
  let m := roundHalfEven (q * 100)
  let whole := m / 100
  let frac := (m % 100).natAbs
  toString whole ++ "." ++ (if frac < 10 then "0" else "") ++ toString frac

/-- One block of the formatted context. -/
def contextoBlock (idx : Nat) (d : Documento) : String :=
  "[Documento " ++ toString idx ++ ": " ++ d.metadata.documentoNome ++
  " - Página " ++ toString d.metadata.numeroPagina ++
  " - Relevância: " ++ format2 d.score ++ "]\n" ++ d.texto ++ "\n"

/-- Node `formatar_contexto`. -/
def formatar_contexto (s : AgentState) : AgentState :=
  if !s.precisaRecuperacao then { s with contexto := "" }
  else
    match s.documentosRecuperados with
    | [] => { s with contexto := "Nenhum documento relevante foi encontrado." }
    | docs =>
        { s with contexto :=
            String.intercalate "\n---\n" (docs.enum.map fun p => contextoBlock (p.1 + 1) p.2) }

/-- The grounded system prompt of `gerar_resposta`, split around its
`{contexto}` placeholder. -/
def groundedPromptPrefix : String :=
  "Você é um assistente útil que responde perguntas baseado em documentos fornecidos.\n\nINSTRUÇÕES IMPORTANTES:\n- Responda APENAS com base no contexto fornecido\n- Se a informação não estiver no contexto, diga claramente que não encontrou a informação\n- Cite o número da página quando possível\n- Seja claro, conciso e objetivo\n- Responda em português brasileiro\n\nCONTEXTO:\n"

def groundedPromptSuffix : String :=
  "\n\nResponda à pergunta do usuário baseado apenas no contexto acima."

/-- The no-retrieval system prompt of `gerar_resposta`. -/
def genericPrompt : String :=
  "Você é um assistente útil especializado em responder perguntas sobre documentos PDF.\n\nSe o usuário cumprimentar você, seja cordial e explique brevemente o que você pode fazer.\nSe for uma pergunta que requer documentos, informe que nenhum documento foi encontrado ou carregado ainda.\n\nResponda sempre em português brasileiro."

/-- The `(role, content)` messages `gerar_resposta` builds: grounded
template when retrieval was needed and the context is non-empty,
generic template otherwise. -/
def mensagensFor (s : AgentState) : List (String × String) :=
  if s.precisaRecuperacao && s.contexto != "" then
    [("system", groundedPromptPrefix ++ s.contexto ++ groundedPromptSuffix),
     ("human", s.consulta)]
  else
    [("system", genericPrompt), ("human", s.consulta)]

/-- Node `gerar_resposta`.  `llm` is the external language-model call on
the built messages; on success the answer is stored and `erro` is set to
`None`, on exception the apologetic answer embeds `str(e)` and `erro`
is set. -/
def gerar_resposta (llm : List (String × String) → Except String String)
    (s : AgentState) : AgentState :=
  match llm (mensagensFor s) with
  | .ok resposta => { s with resposta := resposta, erro := none }
  | .error e =>
      { s with resposta := "Desculpe, ocorreu um erro ao gerar a resposta: " ++ e,
               erro := some e }

/-- Python truthiness of the `erro` field (`state.get("erro")`). -/
def erroTruthy : Option String → Bool
  | none => false
  | some e => e != ""

/-- `decidir_proximo_no`. -/
def decidir_proximo_no (s : AgentState) : String :=
  if erroTruthy s.erro then "fim"
  else if !s.precisaRecuperacao then "gerar"
  else "recuperar"

/-- The nodes of the compiled graph, plus the terminal `END`. -/
inductive No where
  | analisar | recuperar | formatar | gerar | fim
deriving DecidableEq

/-- The edges of `criar_workflow`: conditional edges out of `analisar`
via `decidir_proximo_no`, then the unconditional chain
`recuperar → formatar → gerar → END`. -/
def nextNode : No → AgentState → No
  | .analisar, s =>
      if decidir_proximo_no s == "recuperar" then .recuperar
      else if decidir_proximo_no s == "gerar" then .gerar
      else .fim
  | .recuperar, _ => .formatar
  | .formatar, _ => .gerar
  | .gerar, _ => .fim
  | .fim, _ => .fim

/-- The node functions, with the two external calls passed in. -/
def execNode (retrieval : Except String (List Documento))
    (llm : List (String × String) → Except String String) :
    No → AgentState → AgentState
  | .analisar, s => analisar_consulta s
  | .recuperar, s => recuperar_documentos retrieval s
  | .formatar, s => formatar_contexto s
  | .gerar, s => gerar_resposta llm s
  | .fim, s => s

/-- One step of the compiled graph: run the current node, then follow
its (possibly conditional) edge on the updated state. -/
def stepWorkflow (retrieval : Except String (List Documento))
    (llm : List (String × String) → Except String String)
    (p : No × AgentState) : No × AgentState :=
  let s := execNode retrieval llm p.1 p.2
  (nextNode p.1 s, s)

/-- `workflow.invoke(estado_inicial)`: entry point `analisar`, at most
four node executions before `END`. -/
def runWorkflow (retrieval : Except String (List Documento))
    (llm : List (String × String) → Except String String)
    (s0 : AgentState) : AgentState :=
  let s1 := analisar_consulta s0
  if decidir_proximo_no s1 == "fim" then s1
  else if decidir_proximo_no s1 == "gerar" then gerar_resposta llm s1
  else gerar_resposta llm (formatar_contexto (recuperar_documentos retrieval s1))

/-- The initial state built by `RAGAgent.processar_consulta`. -/
def estadoInicial (consulta : String) (historico : List (String × String)) : AgentState :=
  { consulta := consulta, historicoConversa := historico,
    documentosRecuperados := [], contexto := "", resposta := "", fontes := [],
    precisaRecuperacao := true, erro := none }

/-! ## Engine lemmas

`MatcherWF m` states that a matcher only splits its input (`matched ++
rest = s`), consumes at least one character, and produces a replacement
of the same length as the match; such matchers make `re.sub` a
length-preserving transformation. -/

def MatcherWF (m : Matcher) : Prop :=
  ∀ prev s matched repl rest, m prev s = some (matched, repl, rest) →
    matched ++ rest = s ∧ matched ≠ [] ∧ repl.length = matched.length

theorem reSubL_nil (m : Matcher) (fuel : Nat) (prev : Option Char) :
    reSubL m fuel prev [] = [] := by
  cases fuel <;> rfl

theorem reSubL_length (m : Matcher) (hm : MatcherWF m) :
    ∀ (fuel : Nat) (prev : Option Char) (s : List Char), s.length ≤ fuel →
      (reSubL m fuel prev s).length = s.length := by
  intro fuel
  induction fuel with
  | zero =>
      intro prev s hs
      have : s = [] := List.length_eq_zero.mp (Nat.le_zero.mp hs)
      subst this; rfl
  | succ n ih =>
      intro prev s hs
      match s with
      | [] => rfl
      | c :: cs =>
        rw [reSubL]
        cases hmt : m prev (c :: cs) with
        | none =>
            simp only [List.length_cons] at hs ⊢
            rw [ih (some c) cs (Nat.le_of_succ_le_succ hs)]
        | some t =>
            obtain ⟨matched, repl, rest⟩ := t
            obtain ⟨happ, hne, hlen⟩ := hm prev (c :: cs) matched repl rest hmt
            have hlens : matched.length + rest.length = cs.length + 1 := by
              have := congrArg List.length happ
              simpa [List.length_append] using this
            have hm1 : 1 ≤ matched.length := by
              cases matched with
              | nil => exact absurd rfl hne
              | cons _ _ => simp
            have hrest : rest.length ≤ n := by
              simp only [List.length_cons] at hs; omega
            simp only [List.length_append, List.length_cons] at hs ⊢
            rw [ih matched.getLast? rest hrest]
            omega

theorem pyReSub_length (m : Matcher) (hm : MatcherWF m) (s : List Char) :
    (pyReSub m s).length = s.length :=
  reSubL_length m hm s.length none s (Nat.le_refl _)

/-- Every successful match is followed by a word boundary (the trailing
`\b` of the pattern, or the `(?=\n|$)` lookahead of the name rule). -/
def S1 (m : Matcher) : Prop :=
  ∀ prev s mt rp rs, m prev s = some (mt, rp, rs) → wordOpt rs.head? = false

/-- The matcher splits its input. -/
def Splits (m : Matcher) : Prop :=
  ∀ prev s mt rp rs, m prev s = some (mt, rp, rs) → mt ++ rs = s

/-- A match starting in the pre-segment text `t` (which ends with the
non-word character guarding the segment) stays strictly inside `t`. -/
def NoCross (m : Matcher) (SEG : List Char) : Prop :=
  ∀ prev t V mt rp rs, t ≠ [] → wordOpt t.getLast? = false → wordOpt V.head? = false →
    m prev (t ++ (SEG ++ V)) = some (mt, rp, rs) → mt.length < t.length

/-- At every position inside the segment (with the true previous
character: the guard for the first position, the preceding segment
character otherwise) the matcher either fails or consumes the remaining
segment `t` whole and emits it verbatim at the head of its replacement. -/
def SegMatches (m : Matcher) (SEG : List Char) : Prop :=
  ∀ p t prev V, p ++ t = SEG → t ≠ [] → wordOpt V.head? = false →
    (p = [] → wordOpt prev = false) → (p ≠ [] → prev = p.getLast?) →
    m prev (t ++ V) = none ∨
    ∃ w r' rs, m prev (t ++ V) = some (t ++ w, t ++ r', rs) ∧
      r' ≠ [] ∧ wordOpt r'.head? = false

/-- A match at the start of a text with a non-word head reproduces that
head (true for the parenthesised-phone and email rules; the digit- and
label-anchored rules cannot match there at all). -/
def HeadKeeps (m : Matcher) : Prop :=
  ∀ prev s mt rp rs, wordOpt s.head? = false → m prev s = some (mt, rp, rs) →
    rp ≠ [] ∧ wordOpt rp.head? = false

theorem scan_head (m : Matcher) (hk : HeadKeeps m) :
    ∀ (fuel : Nat) (prev : Option Char) (V : List Char), wordOpt V.head? = false →
      wordOpt ((reSubL m fuel prev V).head?) = false := by
  intro fuel prev V hV
  cases V with
  | nil => rw [reSubL_nil]; exact hV
  | cons c cs =>
      cases fuel with
      | zero => exact hV
      | succ f =>
          rw [reSubL]
          cases hmt : m prev (c :: cs) with
          | none => exact hV
          | some t =>
              obtain ⟨mt, rp, rs⟩ := t
              obtain ⟨hne, hh⟩ := hk prev (c :: cs) mt rp rs hV hmt
              cases rp with
              | nil => exact absurd rfl hne
              | cons r rrest => simpa using hh

theorem seg_walk (m : Matcher) (SEG V : List Char) (hseg : SegMatches m SEG)
    (hk : HeadKeeps m) (hVh : wordOpt V.head? = false) :
    ∀ (fuel : Nat) (p t : List Char) (prev : Option Char), p ++ t = SEG → t ≠ [] →
      (p = [] → wordOpt prev = false) → (p ≠ [] → prev = p.getLast?) →
      ∃ T, reSubL m fuel prev (t ++ V) = t ++ T ∧ wordOpt T.head? = false := by
  intro fuel
  induction fuel with
  | zero =>
      intro p t prev _ ht _ _
      cases t with
      | nil => exact absurd rfl ht
      | cons c cs => exact ⟨V, rfl, hVh⟩
  | succ f ih =>
      intro p t prev hpt ht hp0 hpl
      cases t with
      | nil => exact absurd rfl ht
      | cons c t' =>
          rcases hseg p (c :: t') prev V hpt ht hVh hp0 hpl with hnone | hsome
          · have hnone' : m prev (c :: (t' ++ V)) = none := by simpa using hnone
            have hgoal : reSubL m (f + 1) prev ((c :: t') ++ V) =
                c :: reSubL m f (some c) (t' ++ V) := by
              simp only [List.cons_append, reSubL, List.append_eq, hnone']
            rw [hgoal]
            cases t' with
            | nil =>
                exact ⟨reSubL m f (some c) V, by simp, scan_head m hk f (some c) V hVh⟩
            | cons d t'' =>
                obtain ⟨T, hT, hTh⟩ := ih (p ++ [c]) (d :: t'') (some c)
                  (by simpa using hpt) (by simp)
                  (fun h => absurd h (by simp))
                  (fun _ => by simp)
                exact ⟨T, by rw [hT]; rfl, hTh⟩
          · obtain ⟨w, r', rs, hmt, hr'ne, hr'h⟩ := hsome
            have hmt' : m prev (c :: (t' ++ V)) =
                some (c :: (t' ++ w), c :: (t' ++ r'), rs) := by simpa using hmt
            refine ⟨r' ++ reSubL m f (c :: (t' ++ w)).getLast? rs, ?_, ?_⟩
            · have hgoal : reSubL m (f + 1) prev ((c :: t') ++ V) =
                  (c :: (t' ++ r')) ++ reSubL m f (c :: (t' ++ w)).getLast? rs := by
                simp only [List.cons_append, reSubL, List.append_eq, hmt']
              rw [hgoal]
              simp
            · cases r' with
              | nil => exact absurd rfl hr'ne
              | cons x xs => simpa using hr'h

theorem getLast?_append_right {l₁ l₂ : List Char} (h : l₂ ≠ []) :
    (l₁ ++ l₂).getLast? = l₂.getLast? := by
  induction l₁ with
  | nil => rfl
  | cons a l ih =>
      have hne : l ++ l₂ ≠ [] := by
        intro hc
        rcases List.append_eq_nil.mp hc with ⟨-, h2⟩
        exact h h2
      rw [List.cons_append]
      cases hc : l ++ l₂ with
      | nil => exact absurd hc hne
      | cons b bs => rw [List.getLast?_cons_cons, ← hc, ih]

theorem drop_getLast_eq {l : List Char} {k : Nat} (h : l.drop k ≠ []) :
    (l.drop k).getLast? = l.getLast? := by
  conv_rhs => rw [← List.take_append_drop k l]
  rw [getLast?_append_right h]

/-- The identity-shaped engine theorem: under the three conditions, a
`re.sub` pass maps `U ++ SEG ++ V` to `U' ++ SEG ++ T`, preserving the
guard character before the segment and the non-word head after it. -/
theorem seg_engine (m : Matcher) (SEG V : List Char) (hSEG : SEG ≠ [])
    (hwf : Splits m) (hnc : NoCross m SEG) (hseg : SegMatches m SEG)
    (hk : HeadKeeps m) (hVh : wordOpt V.head? = false) :
    ∀ (fuel : Nat) (prev : Option Char) (U : List Char),
      (U = [] → wordOpt prev = false) → wordOpt U.getLast? = false →
      ∃ U' T, reSubL m fuel prev (U ++ SEG ++ V) = U' ++ SEG ++ T ∧
        (U' = [] ↔ U = []) ∧ U'.getLast? = U.getLast? ∧ wordOpt T.head? = false := by
  intro fuel
  induction fuel with
  | zero =>
      intro prev U _ _
      exact ⟨U, V, by cases hs : U ++ SEG ++ V with
        | nil => simp_all
        | cons a l => rfl, Iff.rfl, rfl, hVh⟩
  | succ f ih =>
      intro prev U hU0 hUl
      cases U with
      | nil =>
          obtain ⟨T, hT, hTh⟩ := seg_walk m SEG V hseg hk hVh (f + 1) [] SEG prev
            (by simp) hSEG (fun _ => hU0 rfl) (fun h => absurd rfl h)
          exact ⟨[], T, by simpa using hT, by simp, rfl, hTh⟩
      | cons c U₀ =>
          rw [List.cons_append, List.cons_append, reSubL]
          cases hmt : m prev (c :: (U₀ ++ SEG ++ V)) with
          | none =>
              have hU₀l : wordOpt U₀.getLast? = false := by
                cases U₀ with
                | nil => rfl
                | cons d l =>
                    rw [List.getLast?_cons_cons] at hUl
                    exact hUl
              obtain ⟨U', T, hT, hiff, hlast, hTh⟩ := ih (some c) U₀
                (by intro h; subst h; simpa using hUl) hU₀l
              refine ⟨c :: U', T, by simpa using hT, by simp, ?_, hTh⟩
              by_cases hU₀e : U₀ = []
              · subst hU₀e
                have : U' = [] := hiff.mpr rfl
                subst this
                rfl
              · have hU'ne : U' ≠ [] := fun h => hU₀e (hiff.mp h)
                cases U' with
                | nil => exact absurd rfl hU'ne
                | cons x xs =>
                    cases hU₀c : U₀ with
                    | nil => exact absurd hU₀c hU₀e
                    | cons y ys =>
                        rw [List.getLast?_cons_cons, List.getLast?_cons_cons]
                        rw [hU₀c] at hlast
                        exact hlast
          | some t =>
              obtain ⟨mt', rp, rs⟩ := t
              have hmt' : m prev ((c :: U₀) ++ (SEG ++ V)) = some (mt', rp, rs) := by
                simpa using hmt
              have happ : mt' ++ rs = (c :: U₀) ++ (SEG ++ V) :=
                hwf prev _ mt' rp rs hmt'
              have hlt : mt'.length < (c :: U₀).length :=
                hnc prev (c :: U₀) V mt' rp rs (by simp) hUl hVh hmt'
              have hrs : rs = (c :: U₀).drop mt'.length ++ (SEG ++ V) := by
                have h1 : (mt' ++ rs).drop mt'.length = rs := List.drop_left mt' rs
                rw [happ] at h1
                rw [← h1, List.drop_append_of_le_length (Nat.le_of_lt hlt)]
              have hU₁ne : (c :: U₀).drop mt'.length ≠ [] := by
                intro h
                have := congrArg List.length h
                simp only [List.length_drop, List.length_nil] at this
                omega
              have hU₁l : wordOpt ((c :: U₀).drop mt'.length).getLast? = false := by
                rw [drop_getLast_eq hU₁ne]; exact hUl
              obtain ⟨U'', T, hT, hiff2, hlast2, hTh⟩ := ih mt'.getLast?
                ((c :: U₀).drop mt'.length) (fun h => absurd h hU₁ne) hU₁l
              have hU''ne : U'' ≠ [] := fun h => hU₁ne (hiff2.mp h)
              have hT' : reSubL m f mt'.getLast? rs = U'' ++ SEG ++ T := by
                rw [hrs, ← List.append_assoc]
                exact hT
              refine ⟨rp ++ U'', T, ?_, ?_, ?_, hTh⟩
              · show rp ++ reSubL m f mt'.getLast? rs = rp ++ U'' ++ SEG ++ T
                rw [hT']
                simp
              · constructor
                · intro h
                  exact absurd h (by simp [hU''ne])
                · intro h; exact absurd h (by simp)
              · rw [getLast?_append_right hU''ne, hlast2, drop_getLast_eq hU₁ne]

/-- The rewriting engine theorem: if the matcher, at the segment with a
non-word character before it, consumes exactly the segment and replaces
it by `OUT`, then the pass maps `U ++ SEG ++ V` to `U' ++ OUT ++ T`. -/
theorem seg_engine_rw (m : Matcher) (SEG OUT V : List Char) (hSEG : SEG ≠ [])
    (hwf : MatcherWF m) (hnc : NoCross m SEG)
    (hk : HeadKeeps m) (hVh : wordOpt V.head? = false)
    (hmatch : ∀ prev, wordOpt prev = false → m prev (SEG ++ V) = some (SEG, OUT, V)) :
    ∀ (fuel : Nat) (prev : Option Char) (U : List Char), U.length + 1 ≤ fuel →
      (U = [] → wordOpt prev = false) → wordOpt U.getLast? = false →
      ∃ U' T, reSubL m fuel prev (U ++ SEG ++ V) = U' ++ OUT ++ T ∧
        (U' = [] ↔ U = []) ∧ U'.getLast? = U.getLast? ∧ wordOpt T.head? = false := by
  intro fuel
  induction fuel with
  | zero => intro prev U hfuel _ _; omega
  | succ f ih =>
      intro prev U hfuel hU0 hUl
      cases U with
      | nil =>
          have hm := hmatch prev (hU0 rfl)
          cases hS : SEG with
          | nil => exact absurd hS hSEG
          | cons c S' =>
              subst hS
              have hm' : m prev (c :: (S' ++ V)) = some (c :: S', OUT, V) := by
                simpa using hm
              have hgoal : reSubL m (f + 1) prev ((c :: S') ++ V) =
                  OUT ++ reSubL m f (c :: S').getLast? V := by
                simp only [List.cons_append, reSubL, List.append_eq, hm']
              refine ⟨[], reSubL m f (c :: S').getLast? V, by simpa using hgoal,
                by simp, rfl, scan_head m hk f (c :: S').getLast? V hVh⟩
      | cons c U₀ =>
          rw [List.cons_append, List.cons_append, reSubL]
          cases hmt : m prev (c :: (U₀ ++ SEG ++ V)) with
          | none =>
              have hU₀l : wordOpt U₀.getLast? = false := by
                cases U₀ with
                | nil => rfl
                | cons d l =>
                    rw [List.getLast?_cons_cons] at hUl
                    exact hUl
              obtain ⟨U', T, hT, hiff, hlast, hTh⟩ := ih (some c) U₀
                (by simp at hfuel ⊢; omega)
                (by intro h; subst h; simpa using hUl) hU₀l
              refine ⟨c :: U', T, by simpa using hT, by simp, ?_, hTh⟩
              by_cases hU₀e : U₀ = []
              · subst hU₀e
                have : U' = [] := hiff.mpr rfl
                subst this
                rfl
              · have hU'ne : U' ≠ [] := fun h => hU₀e (hiff.mp h)
                cases U' with
                | nil => exact absurd rfl hU'ne
                | cons x xs =>
                    cases hU₀c : U₀ with
                    | nil => exact absurd hU₀c hU₀e
                    | cons y ys =>
                        rw [List.getLast?_cons_cons, List.getLast?_cons_cons]
                        rw [hU₀c] at hlast
                        exact hlast
          | some t =>
              obtain ⟨mt', rp, rs⟩ := t
              have hmt' : m prev ((c :: U₀) ++ (SEG ++ V)) = some (mt', rp, rs) := by
                simpa using hmt
              obtain ⟨happ, hmne, -⟩ := hwf prev _ mt' rp rs hmt'
              have hlt : mt'.length < (c :: U₀).length :=
                hnc prev (c :: U₀) V mt' rp rs (by simp) hUl hVh hmt'
              have hrs : rs = (c :: U₀).drop mt'.length ++ (SEG ++ V) := by
                have h1 : (mt' ++ rs).drop mt'.length = rs := List.drop_left mt' rs
                rw [happ] at h1
                rw [← h1, List.drop_append_of_le_length (Nat.le_of_lt hlt)]
              have hU₁ne : (c :: U₀).drop mt'.length ≠ [] := by
                intro h
                have := congrArg List.length h
                simp only [List.length_drop, List.length_nil] at this
                omega
              have hU₁l : wordOpt ((c :: U₀).drop mt'.length).getLast? = false := by
                rw [drop_getLast_eq hU₁ne]; exact hUl
              have hmt1 : 1 ≤ mt'.length := by
                cases mt' with
                | nil => exact absurd rfl hmne
                | cons _ _ => simp
              obtain ⟨U'', T, hT, hiff2, hlast2, hTh⟩ := ih mt'.getLast?
                ((c :: U₀).drop mt'.length)
                (by simp only [List.length_drop, List.length_cons] at *; omega)
                (fun h => absurd h hU₁ne) hU₁l
              have hU''ne : U'' ≠ [] := fun h => hU₁ne (hiff2.mp h)
              have hT' : reSubL m f mt'.getLast? rs = U'' ++ OUT ++ T := by
                rw [hrs, ← List.append_assoc]
                exact hT
              refine ⟨rp ++ U'', T, ?_, ?_, ?_, hTh⟩
              · show rp ++ reSubL m f mt'.getLast? rs = rp ++ U'' ++ OUT ++ T
                rw [hT']
                simp
              · constructor
                · intro h
                  exact absurd h (by simp [hU''ne])
                · intro h; exact absurd h (by simp)
              · rw [getLast?_append_right hU''ne, hlast2, drop_getLast_eq hU₁ne]

/-- Pass-level statement: one `re.sub` pass over an arbitrary admissible
context leaves the protected segment in place. -/
theorem pyReSub_seg (m : Matcher) (SEG : List Char) (hSEG : SEG ≠ [])
    (hwf : Splits m) (hnc : NoCross m SEG) (hseg : SegMatches m SEG)
    (hk : HeadKeeps m) (U V : List Char)
    (hU : wordOpt U.getLast? = false) (hV : wordOpt V.head? = false) :
    ∃ U' T, pyReSub m (U ++ SEG ++ V) = U' ++ SEG ++ T ∧
      wordOpt U'.getLast? = false ∧ wordOpt T.head? = false := by
  obtain ⟨U', T, hT, -, hlast, hTh⟩ := seg_engine m SEG V hSEG hwf hnc hseg hk hV
    (U ++ SEG ++ V).length none U (fun _ => rfl) hU
  exact ⟨U', T, hT, by rw [hlast]; exact hU, hTh⟩

/-- Pass-level statement for the rewriting pass. -/
theorem pyReSub_seg_rw (m : Matcher) (SEG OUT : List Char) (hSEG : SEG ≠ [])
    (hwf : MatcherWF m) (hnc : NoCross m SEG) (hk : HeadKeeps m)
    (hmatch : ∀ prev V, wordOpt V.head? = false → wordOpt prev = false →
      m prev (SEG ++ V) = some (SEG, OUT, V))
    (U V : List Char)
    (hU : wordOpt U.getLast? = false) (hV : wordOpt V.head? = false) :
    ∃ U' T, pyReSub m (U ++ SEG ++ V) = U' ++ OUT ++ T ∧
      wordOpt U'.getLast? = false ∧ wordOpt T.head? = false := by
  obtain ⟨U', T, hT, -, hlast, hTh⟩ := seg_engine_rw m SEG OUT V hSEG hwf hnc hk hV
    (fun prev hp => hmatch prev V hV hp)
    (U ++ SEG ++ V).length none U
    (by cases hS : SEG with
        | nil => exact absurd hS hSEG
        | cons a l => simp [List.length_append])
    (fun _ => rfl) hU
  exact ⟨U', T, hT, by rw [hlast]; exact hU, hTh⟩

theorem takeWhile_append_dropWhile' (p : Char → Bool) (s : List Char) :
    s.takeWhile p ++ s.dropWhile p = s := by
  simp

/-- Common shape of `cpfPlainM`/`rgPlainM`/`cepPlainM`/`ph11M`/`ph10M`:
`\b\d{n}\b` with a replacement built from the digit run. -/
theorem plainRun_wf (mc : Char) (n : Nat) (hn : n ≠ 0)
    (f : List Char → Char → List Char)
    (hf : ∀ a, a.length = n → (f a mc).length = n)
    (m : Matcher)
    (hm : m = fun prev s =>
      if !atBoundary prev then none else
      let (a, r) := runOf Char.isDigit s
      if a.length == n && endBoundary r then some (a, f a mc, r) else none) :
    MatcherWF m := by
  intro prev s matched repl rest h
  subst hm
  simp only [runOf] at h
  split at h
  · exact absurd h (by simp)
  · split at h
    · rename_i hc
      simp only [Bool.and_eq_true, beq_iff_eq] at hc
      simp only [Option.some.injEq, Prod.mk.injEq] at h
      obtain ⟨hA, hB, hC⟩ := h
      subst hA hB hC
      refine ⟨takeWhile_append_dropWhile' _ _, ?_, ?_⟩
      · intro hnil
        rw [hnil] at hc
        simp [Ne.symm hn] at hc
      · rw [hf _ hc.1, hc.1]
    · exact absurd h (by simp)

theorem cpfPlainM_wf (mc : Char) : MatcherWF (cpfPlainM mc) := by
  refine plainRun_wf mc 11 (by omega)
    (fun a mc => a.take 3 ++ List.replicate 5 mc ++ a.drop (a.length - 3)) ?_ _ rfl
  intro a ha
  simp [ha]

theorem rgPlainM_wf (mc : Char) : MatcherWF (rgPlainM mc) := by
  refine plainRun_wf mc 9 (by omega)
    (fun a mc => a.take 2 ++ List.replicate 5 mc ++ a.drop (a.length - 2)) ?_ _ rfl
  intro a ha
  simp [ha]

theorem cepPlainM_wf (mc : Char) : MatcherWF (cepPlainM mc) := by
  refine plainRun_wf mc 8 (by omega)
    (fun a mc => a.take 5 ++ List.replicate 3 mc) ?_ _ rfl
  intro a ha
  simp [ha]

theorem cpfFmtM_wf (mc : Char) : MatcherWF (cpfFmtM mc) := by
  intro prev s matched repl rest h
  simp only [cpfFmtM, runOf] at h
  split at h; · exact absurd h (by simp)
  split at h; · exact absurd h (by simp)
  rename_i hl1
  split at h; · exact absurd h (by simp)
  rename_i c1 r2 hd1
  split at h; · exact absurd h (by simp)
  rename_i hc1
  split at h; · exact absurd h (by simp)
  rename_i hl2
  split at h; · exact absurd h (by simp)
  rename_i c2 r4 hd2
  split at h; · exact absurd h (by simp)
  rename_i hc2
  split at h; · exact absurd h (by simp)
  rename_i hl3
  split at h; · exact absurd h (by simp)
  rename_i c3 r6 hd3
  split at h; · exact absurd h (by simp)
  rename_i hc3
  split at h; · exact absurd h (by simp)
  rename_i hl4
  simp only [Option.some.injEq, Prod.mk.injEq] at h
  obtain ⟨hA, hB, hC⟩ := h
  simp only [bne_iff_ne, ne_eq, not_not, Bool.not_eq_true, Bool.or_eq_false_iff,
    bne_eq_false_iff_eq, Bool.not_eq_false] at hl1 hl2 hl3 hl4
  subst hA hB hC
  have e1 : List.takeWhile Char.isDigit s ++ (c1 :: r2) = s := by
    rw [← hd1]; exact takeWhile_append_dropWhile' _ _
  have e2 : List.takeWhile Char.isDigit r2 ++ (c2 :: r4) = r2 := by
    rw [← hd2]; exact takeWhile_append_dropWhile' _ _
  have e3 : List.takeWhile Char.isDigit r4 ++ (c3 :: r6) = r4 := by
    rw [← hd3]; exact takeWhile_append_dropWhile' _ _
  have e4 : List.takeWhile Char.isDigit r6 ++ List.dropWhile Char.isDigit r6 = r6 :=
    takeWhile_append_dropWhile' _ _
  refine ⟨?_, ?_, ?_⟩
  · simp only [List.append_assoc, List.cons_append]
    rw [e4, e3, e2, e1]
  · intro hnil
    have := congrArg List.length hnil
    simp only [List.length_append, List.length_cons, List.length_nil, hl1] at this
    omega
  · simp only [List.length_append, List.length_cons, List.length_replicate,
      hl1, hl2, hl3, hl4.1]

theorem rgFmtM_wf (mc : Char) : MatcherWF (rgFmtM mc) := by
  intro prev s matched repl rest h
  simp only [rgFmtM, runOf] at h
  split at h; · exact absurd h (by simp)
  split at h; · exact absurd h (by simp)
  rename_i hl1
  split at h; · exact absurd h (by simp)
  rename_i c1 r2 hd1
  split at h; · exact absurd h (by simp)
  split at h; · exact absurd h (by simp)
  rename_i hl2
  split at h; · exact absurd h (by simp)
  rename_i c2 r4 hd2
  split at h; · exact absurd h (by simp)
  split at h; · exact absurd h (by simp)
  rename_i hl3
  split at h; · exact absurd h (by simp)
  rename_i c3 r6 hd3
  split at h; · exact absurd h (by simp)
  split at h; · exact absurd h (by simp)
  rename_i x r7
  split at h; · exact absurd h (by simp)
  simp only [Option.some.injEq, Prod.mk.injEq] at h
  obtain ⟨hA, hB, hC⟩ := h
  simp only [bne_iff_ne, ne_eq, not_not, Bool.not_eq_true] at hl1 hl2 hl3
  subst hA hB hC
  have e1 : List.takeWhile Char.isDigit s ++ (c1 :: r2) = s := by
    rw [← hd1]; exact takeWhile_append_dropWhile' _ _
  have e2 : List.takeWhile Char.isDigit r2 ++ (c2 :: r4) = r2 := by
    rw [← hd2]; exact takeWhile_append_dropWhile' _ _
  have e3 : List.takeWhile Char.isDigit r4 ++ (c3 :: x :: r7) = r4 := by
    rw [← hd3]; exact takeWhile_append_dropWhile' _ _
  refine ⟨?_, ?_, ?_⟩
  · simp only [List.append_assoc, List.cons_append, List.nil_append]
    rw [e3, e2, e1]
  · intro hnil
    have := congrArg List.length hnil
    simp only [List.length_append, List.length_cons, List.length_nil, hl1] at this
    omega
  · simp only [List.length_append, List.length_cons, List.length_replicate,
      List.length_nil, hl1, hl2, hl3]

theorem cepFmtM_wf (mc : Char) : MatcherWF (cepFmtM mc) := by
  intro prev s matched repl rest h
  simp only [cepFmtM, runOf] at h
  split at h; · exact absurd h (by simp)
  split at h; · exact absurd h (by simp)
  rename_i hl1
  split at h; · exact absurd h (by simp)
  rename_i c1 r2 hd1
  split at h; · exact absurd h (by simp)
  split at h
  · rename_i hc
    simp only [Bool.and_eq_true, beq_iff_eq] at hc
    simp only [bne_iff_ne, ne_eq, not_not] at hl1
    simp only [Option.some.injEq, Prod.mk.injEq] at h
    obtain ⟨hA, hB, hC⟩ := h
    subst hA hB hC
    have e1 : List.takeWhile Char.isDigit s ++ (c1 :: r2) = s := by
      rw [← hd1]; exact takeWhile_append_dropWhile' _ _
    refine ⟨?_, ?_, ?_⟩
    · simp only [List.append_assoc, List.cons_append]
      rw [takeWhile_append_dropWhile' _ _, e1]
    · intro hnil
      have := congrArg List.length hnil
      simp only [List.length_append, List.length_cons, List.length_nil, hl1] at this
      omega
    · simp only [List.length_append, List.length_cons, List.length_replicate, hl1, hc.1]
  · exact absurd h (by simp)

theorem birthM_wf (sep mc : Char) : MatcherWF (birthM sep mc) := by
  intro prev s matched repl rest h
  simp only [birthM, runOf] at h
  split at h; · exact absurd h (by simp)
  split at h; · exact absurd h (by simp)
  rename_i hl1
  split at h; · exact absurd h (by simp)
  rename_i c1 r2 hd1
  split at h; · exact absurd h (by simp)
  split at h; · exact absurd h (by simp)
  rename_i hl2
  split at h; · exact absurd h (by simp)
  rename_i c2 r4 hd2
  split at h; · exact absurd h (by simp)
  split at h
  · rename_i hc
    simp only [Bool.and_eq_true, beq_iff_eq] at hc
    simp only [bne_iff_ne, ne_eq, not_not] at hl1 hl2
    simp only [Option.some.injEq, Prod.mk.injEq] at h
    obtain ⟨hA, hB, hC⟩ := h
    subst hA hB hC
    have e1 : List.takeWhile Char.isDigit s ++ (c1 :: r2) = s := by
      rw [← hd1]; exact takeWhile_append_dropWhile' _ _
    have e2 : List.takeWhile Char.isDigit r2 ++ (c2 :: r4) = r2 := by
      rw [← hd2]; exact takeWhile_append_dropWhile' _ _
    refine ⟨?_, ?_, ?_⟩
    · simp only [List.append_assoc, List.cons_append]
      rw [takeWhile_append_dropWhile' _ _, e2, e1]
    · intro hnil
      have := congrArg List.length hnil
      simp only [List.length_append, List.length_cons, List.length_nil, hl1] at this
      omega
    · simp only [List.length_append, List.length_cons, List.length_replicate,
        hl1, hl2, hc.1]
  · exact absurd h (by simp)

theorem matchCI_append :
    ∀ (lab s l r : List Char), matchCI lab s = some (l, r) → l ++ r = s := by
  intro lab
  induction lab with
  | nil =>
      intro s l r h
      simp only [matchCI, Option.some.injEq, Prod.mk.injEq] at h
      obtain ⟨h1, h2⟩ := h
      subst h1 h2
      rfl
  | cons lc lcs ih =>
      intro s l r h
      cases s with
      | nil => exact absurd h (by simp [matchCI])
      | cons c cs =>
          simp only [matchCI] at h
          split at h
          · cases hm : matchCI lcs cs with
            | none => rw [hm] at h; exact absurd h (by simp)
            | some p =>
                obtain ⟨t, r'⟩ := p
                rw [hm] at h
                simp only [Option.map_some', Option.some.injEq, Prod.mk.injEq] at h
                rw [← h.1, ← h.2]
                simp only [List.cons_append, ih cs t r' hm]
          · exact absurd h (by simp)

theorem prontDot_append (o : Bool) (r1 : List Char) :
    (prontDot o r1).1 ++ (prontDot o r1).2 = r1 := by
  unfold prontDot
  split
  · split
    · split <;> simp
    · simp
  · simp

theorem prontM_wf (lab : List Char) (optDot : Bool) (mc : Char) :
    MatcherWF (prontM lab optDot mc) := by
  intro prev s matched repl rest h
  simp only [prontM, runOf] at h
  split at h; · exact absurd h (by simp)
  rename_i x l r1 hci
  split at h; · exact absurd h (by simp)
  rename_i hsp
  split at h
  · rename_i hc
    simp only [Bool.and_eq_true, decide_eq_true_eq] at hc
    simp only [Option.some.injEq, Prod.mk.injEq] at h
    obtain ⟨hA, hB, hC⟩ := h
    subst hA hB hC
    have el : l ++ r1 = s := matchCI_append lab s l r1 hci
    refine ⟨?_, ?_, ?_⟩
    · simp only [List.append_assoc]
      rw [takeWhile_append_dropWhile' _ _, takeWhile_append_dropWhile' _ _,
        prontDot_append, el]
    · intro hnil
      have := congrArg List.length hnil
      simp only [List.length_append, List.length_nil] at this
      have hsp' :
          (List.takeWhile (fun c => c == ':' || isPySpace c)
            (prontDot optDot r1).2).length ≠ 0 := by
        simpa [List.isEmpty_iff, List.length_eq_zero] using hsp
      omega
    · simp only [List.length_append, List.length_replicate, List.length_drop]
      omega
  · exact absurd h (by simp)

theorem length_mk (l : List Char) : (String.mk l).length = l.length := rfl

/-! ## Digit-character facts, for the CPF/phone disambiguation claim -/

theorem digit_isWordChar (c : Char) (h : c.isDigit = true) : isWordChar c = true := by
  simp [isWordChar, Char.isAlphanum, h]

/-- C9: the national-id, state-id, postal-code, birth-date and
record-number rules only substitute same-width runs, so with the
default mask character each preserves the length of every input text. -/
theorem claim_C9 (t : String) :
    (mask_cpf t '*').length = t.length ∧
    (mask_rg t '*').length = t.length ∧
    (mask_cep t '*').length = t.length ∧
    (mask_birth_date t '*').length = t.length ∧
    (mask_prontuario t '*').length = t.length := by
  refine ⟨?_, ?_, ?_, ?_, ?_⟩
  · rw [mask_cpf, length_mk, pyReSub_length _ (cpfPlainM_wf '*'),
      pyReSub_length _ (cpfFmtM_wf '*')]
    rfl
  · rw [mask_rg, length_mk, pyReSub_length _ (rgPlainM_wf '*'),
      pyReSub_length _ (rgFmtM_wf '*')]
    rfl
  · rw [mask_cep, length_mk, pyReSub_length _ (cepPlainM_wf '*'),
      pyReSub_length _ (cepFmtM_wf '*')]
    rfl
  · rw [mask_birth_date, length_mk, pyReSub_length _ (birthM_wf '.' '*'),
      pyReSub_length _ (birthM_wf '-' '*'), pyReSub_length _ (birthM_wf '/' '*')]
    rfl
  · rw [mask_prontuario, length_mk,
      pyReSub_length _ (prontM_wf "nº do prontuário".data false '*'),
      pyReSub_length _ (prontM_wf "registro".data false '*'),
      pyReSub_length _ (prontM_wf "pront".data true '*'),
      pyReSub_length _ (prontM_wf "prontuário".data false '*')]
    rfl

/-- C3: for every query string, ANALYZE sets `needs_retrieval` to
`false` iff the trimmed, lower-cased query is exactly one of the seven
greeting tokens, or the trimmed query has fewer than 3 characters; in
every other case it sets it to `true`. -/
theorem claim_C3 (q : String) :
    precisaRecuperacaoDe q = false ↔
      (pyStrip (pyLowerS q) ∈ saudacoes ∨ (pyStrip q).length < 3) := by
  simp only [precisaRecuperacaoDe]
  split <;> rename_i h <;> simp_all [List.elem_iff]

/-- C7 counterexample: `mask_pii` on an empty category list is the
identity, not `mask_all_pii`: on `"CPF: 123.456.789-00"` the two
disagree, so the claimed equivalence `mask_pii(t, []) == mask_all_pii(t)`
fails. -/
theorem claim_C7_cex :
    mask_pii "CPF: 123.456.789-00" (some []) '*' ≠
      mask_all_pii "CPF: 123.456.789-00" '*' none := by decide

/-- C7 as amended: an absent (`None`) category list masks all
categories, but an empty list applies no masking at all and returns the
text unchanged. -/
theorem claim_C7 :
    (∀ t mc, mask_pii t none mc = mask_all_pii t mc none) ∧
    (∀ t mc, mask_pii t (some []) mc = t) :=
  ⟨fun _ _ => rfl, fun _ _ => rfl⟩

/-- C8 counterexample: name masking replaces letters 1:1, so
`"Silva"` becomes `"S****"` (5 characters) and `"Santos"` becomes
`"S*****"` (6 characters); the claimed output `"Nome: J*** da S***** S******"`
has one extra mask character in each of those words. -/
theorem claim_C8_cex :
    mask_name "Nome: João da Silva Santos" '*' ≠ "Nome: J*** da S***** S******" := by
  decide

/-- C8 as amended: name masking maps
`"Nome: João da Silva Santos"` to `"Nome: J*** da S**** S*****"` —
the preposition `"da"` passes through, the first letter of each other
word is retained and the remaining letters are replaced 1:1 by the mask
character. -/
theorem claim_C8 :
    mask_name "Nome: João da Silva Santos" '*' = "Nome: J*** da S**** S*****" := by
  decide

/-- C10: `mask_pii` with a single-element category list outside the
recognised set is the identity — the unknown name is silently skipped
(and the total Lean function witnesses that nothing is raised). -/
theorem claim_C10 (t : String) (mc : Char) (c : String)
    (h : c ∉ ["nome", "cpf", "rg", "cep", "email", "phone", "birth_date",
              "prontuario", "all"]) :
    mask_pii t (some [c]) mc = t := by
  simp only [List.mem_cons, List.mem_singleton] at h
  push_neg at h
  obtain ⟨h1, h2, h3, h4, h5, h6, h7, h8, h9, -⟩ := h
  have e1 : (c == "nome") = false := beq_eq_false_iff_ne.mpr h1
  have e2 : (c == "cpf") = false := beq_eq_false_iff_ne.mpr h2
  have e3 : (c == "rg") = false := beq_eq_false_iff_ne.mpr h3
  have e4 : (c == "cep") = false := beq_eq_false_iff_ne.mpr h4
  have e5 : (c == "email") = false := beq_eq_false_iff_ne.mpr h5
  have e6 : (c == "phone") = false := beq_eq_false_iff_ne.mpr h6
  have e7 : (c == "birth_date") = false := beq_eq_false_iff_ne.mpr h7
  have e8 : (c == "prontuario") = false := beq_eq_false_iff_ne.mpr h8
  have e9 : (c == "all") = false := beq_eq_false_iff_ne.mpr h9
  simp [mask_pii, List.lookup, e1, e2, e3, e4, e5, e6, e7, e8, e9, Ne.symm h9]

/-- C6 counterexample: `mask_all_pii` is not idempotent on every input.
On `"12/34/12345@x.com"` the first pass masks only the email local part
(`"12/34/1234*@x.com"`), which creates a fresh `\b\d{2}/\d{2}/\d{4}\b`
match, so the second pass also masks a birth date. -/
theorem claim_C6_cex :
    mask_all_pii (mask_all_pii "12/34/12345@x.com" '*' none) '*' none ≠
      mask_all_pii "12/34/12345@x.com" '*' none := by decide

/-- The demonstration text of the module's `__main__` block. -/
def demoTexto : String :=
  "\n    Dados do paciente:\n    Nome: João da Silva\n    CPF: 123.456.789-00\n    RG: 12.345.678-9\n    Email: joao.silva@email.com\n    Telefone: (11) 98765-4321\n    CEP: 12345-678\n    "

set_option maxRecDepth 40000 in
/-- C6 as amended: idempotence is not universal (see the
counterexample), but it does hold on correctly-masked output of
representative inputs such as the module's own demonstration text,
whose masked form no longer matches any rule's pattern. -/
theorem claim_C6 :
    mask_all_pii (mask_all_pii demoTexto '*' none) '*' none =
      mask_all_pii demoTexto '*' none := by decide

/-- C10 witness at the unrecognised category `"endereco"`. -/
theorem claim_C10_witness :
    ("endereco" ∉ ["nome", "cpf", "rg", "cep", "email", "phone", "birth_date",
                   "prontuario", "all"]) ∧
    mask_pii "CPF: 123.456.789-00" (some ["endereco"]) '*' = "CPF: 123.456.789-00" :=
  ⟨by decide, claim_C10 _ '*' _ (by decide)⟩

/-- C4: `buscar_documentos` keeps exactly the candidates whose
similarity `1 - distancia` reaches the threshold (any candidate below
it is absent), in index order, and every returned record's `score` is
`round(1 - distancia, 4)` of its candidate's raw distance. -/
theorem claim_C4 (threshold : ℚ) (cands : List Candidato) :
    buscar_documentos threshold cands =
      (cands.filter fun c => (1 : ℚ) - c.distancia ≥ threshold).map mkDocumento ∧
    ∀ d ∈ buscar_documentos threshold cands, ∃ c ∈ cands,
      (1 : ℚ) - c.distancia ≥ threshold ∧ d.score = pyRound4 (1 - c.distancia) := by
  constructor
  · induction cands with
    | nil => rfl
    | cons c cs ih =>
      simp only [buscar_documentos, List.filterMap_cons, List.filter_cons] at *
      by_cases h : (1 : ℚ) - c.distancia ≥ threshold
      · simp [h, ih]
      · simp [h, ih]
  · intro d hd
    simp only [buscar_documentos, List.mem_filterMap] at hd
    obtain ⟨c, hc, he⟩ := hd
    by_cases h : (1 : ℚ) - c.distancia ≥ threshold
    · rw [if_pos h] at he
      exact ⟨c, hc, h, by cases he; rfl⟩
    · rw [if_neg h] at he
      cases he

/-- Metadata of the C4 witness candidates. -/
def c4meta : Metadata := ⟨"doc1", "manual.pdf", 2, 10⟩

/-- C4 witness: at threshold `0.7`, the candidate at distance `1/5`
(similarity `0.8`) is returned with score `round(0.8, 4)`, while the
candidate at distance `2/5` (similarity `0.6`) is filtered out. -/
theorem claim_C4_witness :
    (mkDocumento ⟨"chunk A", c4meta, 1/5⟩ ∈
      buscar_documentos (7/10) [⟨"chunk A", c4meta, 1/5⟩, ⟨"chunk B", c4meta, 2/5⟩]) ∧
    ∃ c ∈ [(⟨"chunk A", c4meta, 1/5⟩ : Candidato), ⟨"chunk B", c4meta, 2/5⟩],
      (1 : ℚ) - c.distancia ≥ 7/10 ∧
      (mkDocumento (⟨"chunk A", c4meta, 1/5⟩ : Candidato)).score = pyRound4 (1 - c.distancia) := by
  have hres : buscar_documentos (7/10)
      [⟨"chunk A", c4meta, 1/5⟩, ⟨"chunk B", c4meta, 2/5⟩] =
      [mkDocumento ⟨"chunk A", c4meta, 1/5⟩] := by
    unfold buscar_documentos
    rw [List.filterMap_cons, List.filterMap_cons, List.filterMap_nil]
    rw [if_pos (by norm_num), if_neg (by norm_num)]
  have hmem : mkDocumento (⟨"chunk A", c4meta, 1/5⟩ : Candidato) ∈
      buscar_documentos (7/10) [⟨"chunk A", c4meta, 1/5⟩, ⟨"chunk B", c4meta, 2/5⟩] := by
    rw [hres]; exact List.mem_singleton.mpr rfl
  exact ⟨hmem, (claim_C4 (7/10) _).2 _ hmem⟩

/-- The concrete scenario of the C1/C2 counterexamples: a query that
needs retrieval, a retrieval call that raises, and an LLM call that
succeeds. -/
def cexConsulta : String := "Qual é o resumo do documento?"

def cexS0 : AgentState := estadoInicial cexConsulta []

def cexRetrieval : Except String (List Documento) := .error "Connection refused"

def cexLlm : List (String × String) → Except String String := fun _ => .ok "Resposta gerada."

/-- The state right after the failing RETRIEVE step. -/
def cexS2 : AgentState := recuperar_documentos cexRetrieval (analisar_consulta cexS0)

set_option maxRecDepth 8000 in
/-- C1 counterexample: when the Retrieval Gateway raises, the
post-RETRIEVE state does carry the error with empty chunks/sources, but
the workflow does **not** transition directly to DONE: the edge out of
`recuperar` is unconditionally `formatar`, GENERATE still runs — with
the grounded template over the "no relevant documents" sentinel — and
on LLM success the final state has `erro = none`. -/
theorem claim_C1_cex :
    cexS2.erro = some "Erro ao recuperar documentos: Connection refused" ∧
    cexS2.documentosRecuperados = [] ∧ cexS2.fontes = [] ∧
    nextNode No.recuperar cexS2 ≠ No.fim ∧
    nextNode No.recuperar cexS2 = No.formatar ∧
    mensagensFor (formatar_contexto cexS2) =
      [("system", groundedPromptPrefix ++ "Nenhum documento relevante foi encontrado." ++
          groundedPromptSuffix),
       ("human", cexConsulta)] ∧
    (runWorkflow cexRetrieval cexLlm cexS0).resposta = "Resposta gerada." ∧
    (runWorkflow cexRetrieval cexLlm cexS0).erro = none := by decide

/-- C1 as amended: on a failing RETRIEVE the state gets a non-null
error and empty `retrieved_chunks`/`sources`, but the workflow then
proceeds unconditionally to FORMAT and GENERATE (the error shortcut to
DONE exists only at the ANALYZE fork), and when the LLM call succeeds
the final state carries that answer with `erro = none`. -/
theorem claim_C1 (s0 : AgentState) (e a : String)
    (hp : decidir_proximo_no (analisar_consulta s0) = "recuperar") :
    (recuperar_documentos (Except.error e) (analisar_consulta s0)).erro =
      some ("Erro ao recuperar documentos: " ++ e) ∧
    (recuperar_documentos (Except.error e) (analisar_consulta s0)).documentosRecuperados = [] ∧
    (recuperar_documentos (Except.error e) (analisar_consulta s0)).fontes = [] ∧
    nextNode No.recuperar (recuperar_documentos (Except.error e) (analisar_consulta s0)) =
      No.formatar ∧
    (runWorkflow (Except.error e) (fun _ => Except.ok a) s0).erro = none ∧
    (runWorkflow (Except.error e) (fun _ => Except.ok a) s0).resposta = a := by
  have hprec : (analisar_consulta s0).precisaRecuperacao = true := by
    by_contra hn
    simp only [decidir_proximo_no] at hp
    split at hp
    · exact absurd hp (by decide)
    · split at hp
      · exact absurd hp (by decide)
      · rename_i h2
        simp only [Bool.not_eq_true'] at h2
        exact hn (by simp [h2])
  refine ⟨?_, ?_, ?_, rfl, ?_, ?_⟩
  · simp [recuperar_documentos, hprec]
  · simp [recuperar_documentos, hprec]
  · simp [recuperar_documentos, hprec]
  · simp [runWorkflow, hp, gerar_resposta]
  · simp [runWorkflow, hp, gerar_resposta]

/-- C1 witness: the amended C1 at the concrete failing scenario. -/
theorem claim_C1_witness :
    (decidir_proximo_no (analisar_consulta cexS0) = "recuperar") ∧
    ((recuperar_documentos (Except.error "Connection refused") (analisar_consulta cexS0)).erro =
      some ("Erro ao recuperar documentos: " ++ "Connection refused") ∧
    (recuperar_documentos (Except.error "Connection refused")
        (analisar_consulta cexS0)).documentosRecuperados = [] ∧
    (recuperar_documentos (Except.error "Connection refused") (analisar_consulta cexS0)).fontes
      = [] ∧
    nextNode No.recuperar
        (recuperar_documentos (Except.error "Connection refused") (analisar_consulta cexS0)) =
      No.formatar ∧
    (runWorkflow (Except.error "Connection refused")
        (fun _ => Except.ok "ok") cexS0).erro = none ∧
    (runWorkflow (Except.error "Connection refused")
        (fun _ => Except.ok "ok") cexS0).resposta = "ok") :=
  ⟨by decide, claim_C1 cexS0 "Connection refused" "ok" (by decide)⟩

set_option maxRecDepth 8000 in
/-- C2 counterexample, on the step relation `stepWorkflow`: after two
steps from `(analisar, cexS0)` the state has a truthy `erro`, yet the
next node is `formatar` (not the terminal), and after the remaining two
steps the final state has its `answer_text` overwritten with the
LLM's non-error answer and `erro` cleared — so a previously set error
is cleared and `answer_text` is overwritten by a later step. -/
theorem claim_C2_cex :
    (stepWorkflow cexRetrieval cexLlm
        (stepWorkflow cexRetrieval cexLlm (No.analisar, cexS0))).2.erro =
      some "Erro ao recuperar documentos: Connection refused" ∧
    erroTruthy (stepWorkflow cexRetrieval cexLlm
        (stepWorkflow cexRetrieval cexLlm (No.analisar, cexS0))).2.erro = true ∧
    (stepWorkflow cexRetrieval cexLlm
        (stepWorkflow cexRetrieval cexLlm (No.analisar, cexS0))).1 = No.formatar ∧
    (stepWorkflow cexRetrieval cexLlm (stepWorkflow cexRetrieval cexLlm
        (stepWorkflow cexRetrieval cexLlm
          (stepWorkflow cexRetrieval cexLlm (No.analisar, cexS0))))).1 = No.fim ∧
    (stepWorkflow cexRetrieval cexLlm (stepWorkflow cexRetrieval cexLlm
        (stepWorkflow cexRetrieval cexLlm
          (stepWorkflow cexRetrieval cexLlm (No.analisar, cexS0))))).2.resposta =
      "Resposta gerada." ∧
    (stepWorkflow cexRetrieval cexLlm (stepWorkflow cexRetrieval cexLlm
        (stepWorkflow cexRetrieval cexLlm
          (stepWorkflow cexRetrieval cexLlm (No.analisar, cexS0))))).2.erro = none := by
  decide

/-- C2 as amended: the workflow consults `erro` only at the ANALYZE
fork — a state whose error is already truthy there goes straight to the
terminal with no further mutation; but an error set afterwards (e.g. by
RETRIEVE) does not short-circuit: the edge out of `recuperar` is
unconditionally `formatar`, and GENERATE on LLM success overwrites
`answer_text` with a non-error answer and clears `erro`. -/
theorem claim_C2 (s0 : AgentState) (r : Except String (List Documento))
    (llm : List (String × String) → Except String String)
    (s : AgentState) (a : String)
    (h0 : erroTruthy s0.erro = true) (_h : erroTruthy s.erro = true) :
    runWorkflow r llm s0 = analisar_consulta s0 ∧
    decidir_proximo_no (analisar_consulta s0) = "fim" ∧
    nextNode No.recuperar s = No.formatar ∧
    (gerar_resposta (fun _ => Except.ok a) s).erro = none ∧
    (gerar_resposta (fun _ => Except.ok a) s).resposta = a := by
  have hfim : decidir_proximo_no (analisar_consulta s0) = "fim" := by
    simp [decidir_proximo_no, analisar_consulta, h0]
  exact ⟨by simp [runWorkflow, hfim], hfim, rfl, by simp [gerar_resposta],
    by simp [gerar_resposta]⟩

/-- C2 witness: the amended C2 at a state that enters the fork with a
truthy error, and at the concrete post-RETRIEVE failure state. -/
theorem claim_C2_witness :
    (erroTruthy { cexS0 with erro := some "stale" : AgentState }.erro = true) ∧
    (erroTruthy cexS2.erro = true) ∧
    (runWorkflow cexRetrieval cexLlm { cexS0 with erro := some "stale" } =
      analisar_consulta { cexS0 with erro := some "stale" } ∧
    decidir_proximo_no (analisar_consulta { cexS0 with erro := some "stale" }) = "fim" ∧
    nextNode No.recuperar cexS2 = No.formatar ∧
    (gerar_resposta (fun _ => Except.ok "ok") cexS2).erro = none ∧
    (gerar_resposta (fun _ => Except.ok "ok") cexS2).resposta = "ok") :=
  ⟨by decide, by decide,
    claim_C2 { cexS0 with erro := some "stale" } cexRetrieval cexLlm cexS2 "ok"
      (by decide) (by decide)⟩

end RNT
